import Mathlib

/-!
# recursive-decompyle: a verification development

A shallow embedding of `main.go` (functions `main`, `recursiveRun`, `decompile`)
together with the parts of the Go standard library and of
`golang.org/x/sync/semaphore` that the program calls.

Go strings are modelled as lists of Unicode code points.  The path functions of
`path/filepath` only ever test for the ASCII bytes `/` and `.`, so on valid
UTF-8 input the byte-level and the code-point-level readings coincide.
-/

namespace RecursiveDecompyle

/-- A Go `string`. -/
abbrev GoString := List Char

/-! ## `strings` -/

namespace strings

/-- Go `strings.TrimLeft`: drop every leading code point contained in `cutset`. -/
def TrimLeft (s cutset : GoString) : GoString :=
  s.dropWhile (fun c => cutset.contains c)

/-- Go `strings.TrimRight`: drop every trailing code point contained in `cutset`. -/
def TrimRight (s cutset : GoString) : GoString :=
  (s.reverse.dropWhile (fun c => cutset.contains c)).reverse

/-- Go `strings.Trim`: "returns a slice of the string s with all leading and
trailing Unicode code points contained in cutset removed". -/
def Trim (s cutset : GoString) : GoString :=
  if s = [] ∨ cutset = [] then s
  else TrimLeft (TrimRight s cutset) cutset

/-- Go `strings.Join`. -/
def Join : List GoString → GoString → GoString
  | [], _ => []
  | [e], _ => e
  | e :: es, sep => e ++ sep ++ Join es sep

end strings

/-! ## `path/filepath` (Unix) -/

namespace filepath

/-- The path separator test `os.IsPathSeparator` on Unix. -/
def isPathSeparator (c : Char) : Bool := c == '/'

/-- The backtracking loop of `Clean` for a `..` element: starting from write
index `w`, move left while `w > dotdot` and the byte at `w` is not a separator. -/
def backtrack (out : GoString) (dotdot : Nat) : Nat → Nat
  | 0 => 0
  | w + 1 =>
    if w + 1 > dotdot ∧ ¬ isPathSeparator (out.getD (w + 1) '/') then backtrack out dotdot w
    else w + 1

/-- The main loop of `Clean`: `path` is the unread input (from index `r`),
`out` the bytes written so far (`out.length` is `out.w`), `dotdot` the index
where `..` must stop.  Every iteration consumes at least one byte, so a fuel of
`len(path)` iterations is enough. -/
def cleanLoop (rooted : Bool) : Nat → GoString → GoString → Nat → GoString
  | 0, _, out, _ => out
  | fuel + 1, path, out, dotdot =>
    match path with
    | [] => out
    | c :: rest =>
      if isPathSeparator c then
        -- empty path element
        cleanLoop rooted fuel rest out dotdot
      else if c = '.' ∧ (rest = [] ∨ rest.head?.map isPathSeparator = some true) then
        -- . element
        cleanLoop rooted fuel rest out dotdot
      else if c = '.' ∧ rest.head? = some '.' ∧
          (rest.tail = [] ∨ rest.tail.head?.map isPathSeparator = some true) then
        -- .. element: remove to last separator
        if out.length > dotdot then
          cleanLoop rooted fuel rest.tail (out.take (backtrack out dotdot (out.length - 1))) dotdot
        else if !rooted then
          let out1 := if out.length > 0 then out ++ ['/'] else out
          let out2 := out1 ++ ['.', '.']
          cleanLoop rooted fuel rest.tail out2 out2.length
        else
          cleanLoop rooted fuel rest.tail out dotdot
      else
        -- real path element: add slash if needed, then copy the element
        let out1 :=
          if (rooted && out.length != 1) || (!rooted && out.length != 0) then out ++ ['/'] else out
        cleanLoop rooted fuel (path.dropWhile (fun x => !isPathSeparator x))
          (out1 ++ path.takeWhile (fun x => !isPathSeparator x)) dotdot

/-- Go `filepath.Clean` on Unix (no volume name). -/
def Clean (path : GoString) : GoString :=
  if path = [] then ['.']
  else
    let rooted := path.head?.map isPathSeparator = some true
    let out :=
      if rooted then cleanLoop true path.length path.tail ['/'] 1
      else cleanLoop false path.length path [] 0
    -- Turn empty string into "."
    if out = [] then ['.'] else out

/-- Go `filepath.Join` on Unix: `Clean` of the elements from the first non-empty
one on, joined by the separator; the empty string when all are empty. -/
def Join : List GoString → GoString
  | [] => []
  | e :: es => if e ≠ [] then Clean (strings.Join (e :: es) ['/']) else Join es

/-- The scan of `Ext`, from the last byte leftwards: `rev` is the unread part
reversed and `acc` the suffix already passed. -/
def extLoop : GoString → GoString → GoString
  | [], _ => []
  | c :: rev, acc =>
    if isPathSeparator c then []
    else if c = '.' then c :: acc
    else extLoop rev (c :: acc)

/-- Go `filepath.Ext`: the suffix beginning at the final dot in the final
element of `path`; empty if there is no dot. -/
def Ext (path : GoString) : GoString := extLoop path.reverse []

/-- Go `filepath.Base` on Unix: the last element of `path`, trailing separators
removed first; `.` for the empty path and `/` for a path of separators only. -/
def Base (path : GoString) : GoString :=
  if path = [] then ['.']
  else
    let stripped := (path.reverse.dropWhile isPathSeparator).reverse
    let last := (stripped.reverse.takeWhile (fun x => !isPathSeparator x)).reverse
    if last = [] then ['/'] else last

end filepath

/-! ## Errors and `fmt` -/

/-- Go `error` values, kept structurally.  `context.Canceled` and
`context.DeadlineExceeded` are the two values `ctx.Err()` can take; `sys` is an
error of the operating system or of `os/exec`, identified by its message;
`wrapped` is the `*fmt.wrapError` built by `fmt.Errorf` with a `%w` verb. -/
inductive GoError
  | canceled
  | deadlineExceeded
  | sys (msg : GoString)
  | wrapped (msg : GoString) (cause : GoError)
  deriving DecidableEq, Repr

namespace GoError

/-- The method `Error()`. -/
def Error : GoError → GoString
  | canceled => "context canceled".toList
  | deadlineExceeded => "context deadline exceeded".toList
  | sys msg => msg
  | wrapped msg _ => msg

/-- The method `Unwrap()` (`errors.Unwrap`). -/
def Unwrap : GoError → Option GoError
  | wrapped _ cause => some cause
  | _ => none

end GoError

namespace fmt

/-- An operand of a formatting call: a string or a non-nil error. -/
inductive Arg
  | str (s : GoString)
  | err (e : GoError)
  deriving DecidableEq, Repr

/-- How `%s`, `%v` and `%w` print an operand. -/
def Arg.format : Arg → GoString
  | .str s => s
  | .err e => e.Error

/-- Go `fmt.Sprintf`, restricted to the verbs this program uses (`%s`, `%v`,
`%w`); each consumes the next operand, and a verb without operand prints
`%!v(MISSING)` as in Go.  The formats of the program contain no other verb, no
`%%` and no trailing `%`; such characters are copied. -/
def Sprintf : GoString → List Arg → GoString
  | [], _ => []
  | [c], _ => [c]
  | c :: v :: rest, args =>
    if c = '%' ∧ (v = 's' ∨ v = 'v' ∨ v = 'w') then
      match args with
      | a :: as => a.format ++ Sprintf rest as
      | [] => "%!".toList ++ [v] ++ "(MISSING)".toList ++ Sprintf rest []
    else c :: Sprintf (v :: rest) args

/-- The operand of the first `%w` verb of a format, when it is an error. -/
def wrapOperand : GoString → List Arg → Option GoError
  | [], _ => none
  | [_], _ => none
  | c :: v :: rest, args =>
    if c = '%' ∧ (v = 's' ∨ v = 'v' ∨ v = 'w') then
      match args with
      | a :: as =>
        if v = 'w' then (match a with | .err e => some e | .str _ => none)
        else wrapOperand rest as
      | [] => none
    else wrapOperand (v :: rest) args

/-- Go `fmt.Errorf`: the message is that of `Sprintf`; with a `%w` verb whose
operand is an error the result wraps that error. -/
def Errorf (format : GoString) (args : List Arg) : GoError :=
  match wrapOperand format args with
  | some cause => .wrapped (Sprintf format args) cause
  | none => .sys (Sprintf format args)

end fmt

/-! ## The environment of the program -/

/-- A `context.Context` handle.  Its state (`ctx.Err()`) lives in the run state. -/
structure Context where
  id : Nat
  deriving DecidableEq, Repr

/-- An `*exec.Cmd` as built by `exec.CommandContext(ctx, name, arg...)`. -/
structure Cmd where
  ctx : Context
  name : GoString
  args : List GoString
  deriving DecidableEq, Repr

namespace exec

/-- Go `exec.CommandContext`. -/
def CommandContext (ctx : Context) (name : GoString) (arg : List GoString) : Cmd :=
  { ctx := ctx, name := name, args := arg }

end exec

/-- The observable operations of a run, in the order they happen. -/
inductive Event
  | log (msg : GoString)
  | acquire
  | go
  | release
  | mkdirAll (dir : GoString) (perm : Nat)
  | run (cmd : Cmd)
  deriving DecidableEq, Repr

/-- An `os.FileInfo`, of which the program only calls `IsDir()`. -/
structure FileInfo where
  isDir : Bool
  deriving DecidableEq, Repr

/-- What the environment answers to the three fallible calls of one job:
`filepath.Rel(srcPath, path)`, `os.MkdirAll(dirsOnly, 0775)` and `cmd.Run()`. -/
structure JobOutcome where
  rel : Except GoError GoString
  mkdirAll : Option GoError
  run : Option GoError

/-- The arguments of a run of `recursiveRun`, the flag `-bin-path` and the
capacity the semaphore was created with. -/
structure Config where
  binPath : GoString
  ctx : Context
  srcPath : GoString
  destPath : GoString
  capacity : Nat

/-! ## `main.go` -/

/-- The function `decompile` (lines 91-105), given the result of `cmd.Run()`: the command it
runs and the error it returns. -/
def decompile (binPath : GoString) (ctx : Context) (srcPath destPath : GoString)
    (runResult : Option GoError) : Cmd × Option GoError :=
  let cmd := exec.CommandContext ctx binPath ["-o".toList, destPath, srcPath]
  match runResult with
  | some err =>
    (cmd, some (fmt.Errorf "failed to decompile %s: %w".toList [.str srcPath, .err err]))
  | none => (cmd, none)

/-- Line 71: `dirsOnly := strings.Trim(newPath, filepath.Base(newPath))`. -/
def dirsOnly (newPath : GoString) : GoString :=
  strings.Trim newPath (filepath.Base newPath)

/-- Line 75: `newExtension := strings.Trim(newPath, filepath.Ext(newPath)) + ".py"`. -/
def newExtension (newPath : GoString) : GoString :=
  strings.Trim newPath (filepath.Ext newPath) ++ ".py".toList

/-- Lines 65-78, the statements of the goroutine after the `defer`: the operations
performed, in order. -/
def jobStatements (cfg : Config) (path : GoString) (o : JobOutcome) : List Event :=
  match o.rel with
  | .error err =>
    [.log (fmt.Sprintf "Failed to get relative path of %s: %v".toList [.str path, .err err])]
  | .ok relPath =>
    let newPath := filepath.Join [cfg.destPath, relPath]
    let dirs := dirsOnly newPath
    let mk : List Event :=
      match o.mkdirAll with
      | some err =>
        [.mkdirAll dirs 0o775,
         .log (fmt.Sprintf "Failed to create destination dir %s: %v".toList [.str dirs, .err err])]
      | none => [.mkdirAll dirs 0o775]
    let r := decompile cfg.binPath cfg.ctx path (newExtension newPath) o.run
    let dc : List Event :=
      match r.2 with
      | some err => [.run r.1, .log err.Error]
      | none => [.run r.1]
    mk ++ dc

/-- The goroutine started at line 63: `defer sem.Release(1)` runs when the
function returns, after whichever statements were executed. -/
def jobBody (cfg : Config) (path : GoString) (o : JobOutcome) : List Event :=
  jobStatements cfg path o ++ [.release]

/-- How a call of the walk callback ends: it returns an error value (possibly
nil), or it faults with a run-time panic. -/
inductive Ret
  | value (err : Option GoError)
  | fault
  deriving DecidableEq, Repr

/-- Lines 47-58 of the walk callback, given `ctx.Err()`: the lines logged, and
how the call ends there; `none` when control reaches `sem.Acquire` at line 60.
`info` is `none` for the nil `os.FileInfo` that `filepath.Walk` passes when
`Lstat` failed; calling `IsDir()` on it is a nil dereference. -/
def walkFnFilter (ctxErr : Option GoError) (path : GoString) (info : Option FileInfo)
    (err : Option GoError) : List Event × Option Ret :=
  match ctxErr with
  | some e => ([], some (.value (some e)))
  | none =>
    let logs : List Event :=
      match err with
      | some e => [.log (fmt.Sprintf "Error while walking file tree: %v".toList [.err e])]
      | none => []
    match info with
    | none => (logs, some .fault)
    | some fi =>
      if fi.isDir then (logs, some (.value none))
      else if filepath.Ext path ≠ ".pyc".toList then (logs, some (.value none))
      else (logs, none)

/-- Lines 60-81 of the walk callback, given the result of `sem.Acquire(ctx, 1)`:
the operations performed, the goroutine started (if any) and the value returned. -/
def walkFnDispatch (cfg : Config) (path : GoString) (acq : Option GoError) (o : JobOutcome) :
    List Event × Option (List Event) × Ret :=
  match acq with
  | some err =>
    ([], none, .value (some (fmt.Errorf "failed to acquire semaphore: %w".toList [.err err])))
  | none => ([.acquire, .go], some (jobBody cfg path o), .value none)

/-- The result of one call of the walk callback. -/
structure CallbackResult where
  events : List Event
  spawned : Option (List Event)
  ret : Ret
  deriving DecidableEq

/-- The walk callback (lines 46-82) as a whole, given `ctx.Err()` at line 47 and
the result of `sem.Acquire` should line 60 be reached. -/
def walkFn (cfg : Config) (ctxErr acq : Option GoError) (o : JobOutcome)
    (path : GoString) (info : Option FileInfo) (err : Option GoError) : CallbackResult :=
  match walkFnFilter ctxErr path info err with
  | (logs, some r) => { events := logs, spawned := none, ret := r }
  | (logs, none) =>
    let d := walkFnDispatch cfg path acq o
    { events := logs ++ d.1, spawned := d.2.1, ret := d.2.2 }

/-- Lines 84-88: what `recursiveRun` returns, given the result of `filepath.Walk`. -/
def recursiveRunResult (walkErr : Option GoError) : Option GoError :=
  match walkErr with
  | some err => some (fmt.Errorf "error in filepath walk: %w".toList [.err err])
  | none => none

/-- How `main` ends. -/
inductive Exit
  | ok
  | fatal (msg : GoString)
  | panic (msg : GoString)
  deriving DecidableEq, Repr

/-- The function `main` (lines 21-43), given the positional arguments and the
value returned by `recursiveRun`. -/
def main (args : List GoString) (runErr : Option GoError) : Exit :=
  if args.length < 2 then .fatal "Must specify source and destination directories".toList
  else
    match runErr with
    | some err => .panic (fmt.Sprintf "Recursive decompilation failed: %v".toList [.err err])
    | none => .ok

/-! ## The run: `filepath.Walk`, the semaphore and the goroutines -/

/-- The file tree under the source root as `filepath.Walk` meets it: `file` is
any entry that is not a directory, `dir` a directory with the result of reading
it (the children, in the lexical order in which `Walk` visits them, or an
error), `bad` an entry whose `Lstat` fails.  The name of the root is not used:
`Walk` reports the root under the path it was given. -/
inductive Node
  | file (name : GoString)
  | dir (name : GoString) (readErr : Option GoError) (children : List Node)
  | bad (name : GoString) (lstatErr : GoError)

/-- The name of an entry in its directory. -/
def Node.name : Node → GoString
  | .file n => n
  | .dir n _ _ => n
  | .bad n _ => n

/-- An entry still to be visited, with the path `Walk` reports it under. -/
structure Entry where
  path : GoString
  node : Node

/-- What `Walk` passes to the callback for an entry (`info`, `err`), and the
entries it descends into if the callback returns nil: the children of a
directory that could be read, each under `Join(path, name)`. -/
def Entry.report (e : Entry) : Option FileInfo × Option GoError × List Entry :=
  match e.node with
  | .file _ => (some { isDir := false }, none, [])
  | .dir _ readErr children =>
    (some { isDir := true }, readErr,
      match readErr with
      | some _ => []
      | none => children.map (fun c => { path := filepath.Join [e.path, c.name], node := c }))
  | .bad _ lstatErr => (none, some lstatErr, [])

/-- Where the goroutine that called `recursiveRun` is: between two calls of the
walk callback, with the entries still to visit (first to visit first); inside
the callback in `sem.Acquire` (line 60); or back from `recursiveRun` with its
return value. -/
inductive Walker
  | walking (stack : List Entry)
  | acquiring (path : GoString) (stack : List Entry)
  | returned (err : Option GoError)

/-- The state of a run: `ctx.Err()`, the weight the semaphore has handed out,
the walking goroutine, the started goroutines that have not finished (each with
the operations it still has to perform), everything done so far, and whether
the process has died of a run-time panic. -/
structure State where
  ctxErr : Option GoError
  cur : Nat
  walker : Walker
  jobs : List (List Event)
  trace : List Event
  crashed : Bool

/-- The steps of a run.  `cancel` and `deadline` end the context; `visit` is
`Walk` calling the callback on the next entry up to line 58, or returning when
no entry is left; `acquire` is `sem.Acquire` granting the unit and the rest of
the callback (with the answers the new goroutine will get); `acquireFail` is
`sem.Acquire` failing; `job i` is goroutine `i` performing its next operation. -/
inductive Action
  | cancel
  | deadline
  | visit
  | acquire (o : JobOutcome)
  | acquireFail
  | job (i : Nat)

/-- What `Walk` and `recursiveRun` do with the value the callback returned: on
nil the walk goes on with `stack`; an error ends the walk and is returned by
`Walk` as it is (the callback never returns `SkipDir` or `SkipAll`), and
`recursiveRun` returns it wrapped; a fault kills the process. -/
def afterCallback (s : State) (stack : List Entry) : Ret → State
  | .value none => { s with walker := .walking stack }
  | .value (some err) => { s with walker := .returned (recursiveRunResult (some err)) }
  | .fault => { s with crashed := true }

/-- `Walk` takes the next entry and calls the callback; with no entry left it
returns nil and so does `recursiveRun`. -/
def visit (s : State) : Option State :=
  match s.walker with
  | .walking [] => some { s with walker := .returned (recursiveRunResult none) }
  | .walking (e :: stack) =>
    let r := walkFnFilter s.ctxErr e.path e.report.1 e.report.2.1
    let s1 := { s with trace := s.trace ++ r.1 }
    match r.2 with
    | some ret => some (afterCallback s1 (e.report.2.2 ++ stack) ret)
    | none => some { s1 with walker := .acquiring e.path (e.report.2.2 ++ stack) }
  | _ => none

/-- `sem.Acquire(ctx, 1)` of `golang.org/x/sync/semaphore` returns.  It grants
the unit only when fewer than `capacity` are handed out, and blocks until then;
it fails, with `ctx.Err()` and the semaphore unchanged, only when the context
is done.  When both are possible the library version decides, and both are
steps here. -/
def acquire (cfg : Config) (s : State) (granted : Bool) (o : JobOutcome) : Option State :=
  match s.walker with
  | .acquiring path stack =>
    if granted then
      if s.cur < cfg.capacity then
        let d := walkFnDispatch cfg path none o
        some (afterCallback
          { s with cur := s.cur + 1, trace := s.trace ++ d.1, jobs := s.jobs ++ d.2.1.toList }
          stack d.2.2)
      else none
    else
      match s.ctxErr with
      | some e =>
        let d := walkFnDispatch cfg path (some e) o
        some (afterCallback
          { s with trace := s.trace ++ d.1, jobs := s.jobs ++ d.2.1.toList } stack d.2.2)
      | none => none
  | _ => none

/-- Goroutine `i` performs its next operation; a goroutine with nothing left
has returned.  `sem.Release(1)` gives one unit back and panics ("semaphore:
released more than held") when none is handed out. -/
def jobStep (s : State) (i : Nat) : Option State :=
  match s.jobs.get? i with
  | none => none
  | some [] => some { s with jobs := s.jobs.take i ++ s.jobs.drop (i + 1) }
  | some (ev :: rest) =>
    let jobs1 := s.jobs.take i ++ (if rest = [] then [] else [rest]) ++ s.jobs.drop (i + 1)
    match ev with
    | .release =>
      if s.cur = 0 then some { s with crashed := true }
      else some { s with cur := s.cur - 1, jobs := jobs1, trace := s.trace ++ [ev] }
    | _ => some { s with jobs := jobs1, trace := s.trace ++ [ev] }

/-- One step of a run; `none` when the step is not possible in `s`.  A process
that has died takes no step, and a context ends once. -/
def step (cfg : Config) (s : State) (a : Action) : Option State :=
  if s.crashed then none
  else
    match a with
    | .cancel => if s.ctxErr = none then some { s with ctxErr := some .canceled } else none
    | .deadline =>
      if s.ctxErr = none then some { s with ctxErr := some .deadlineExceeded } else none
    | .visit => visit s
    | .acquire o => acquire cfg s true o
    | .acquireFail => acquire cfg s false { rel := .ok [], mkdirAll := none, run := none }
    | .job i => jobStep s i

/-- A run: the steps of a schedule, one after the other. -/
def exec (cfg : Config) : State → List Action → Option State
  | s, [] => some s
  | s, a :: as =>
    match step cfg s a with
    | some s1 => exec cfg s1 as
    | none => none

/-- The call `recursiveRun(ctx, srcPath, destPath, sem)` (lines 45-46) on a fresh
semaphore and a live context: `Walk` is about to visit the root. -/
def recursiveRun (cfg : Config) (tree : Node) : State :=
  { ctxErr := none, cur := 0, walker := .walking [{ path := cfg.srcPath, node := tree }],
    jobs := [], trace := [], crashed := false }

/-! ## Reference definitions and example inputs -/

/-- Go `strings.TrimSuffix`: `s` without the trailing `suffix`, if it ends with it. -/
def strings.TrimSuffix (s suffix : GoString) : GoString :=
  if suffix.isSuffixOf s then s.take (s.length - suffix.length) else s

/-- Go `filepath.Dir` on Unix: `Clean` of the path up to and including its last
separator. -/
def filepath.Dir (path : GoString) : GoString :=
  filepath.Clean (path.reverse.dropWhile (fun x => !filepath.isPathSeparator x)).reverse

/-- The destination path as the specification words it: `Join(D, R)` with its
final `.pyc` extension replaced by `.py` and nothing else changed. -/
def specDestination (D R : GoString) : GoString :=
  strings.TrimSuffix (filepath.Join [D, R]) ".pyc".toList ++ ".py".toList

/-- The directory to create as the specification words it: `d` is the parent
directory of `Join(D, R)`, up to a trailing separator. -/
def specParentDir (D R d : GoString) : Prop :=
  d = filepath.Dir (filepath.Join [D, R]) ∨ d = filepath.Dir (filepath.Join [D, R]) ++ ['/']

instance (D R d : GoString) : Decidable (specParentDir D R d) := by
  unfold specParentDir
  infer_instance

/-- An example run: `recursive-decompyle src dst` on a machine with two CPUs. -/
def exampleConfig : Config :=
  { binPath := "decompyle3".toList, ctx := { id := 0 }, srcPath := "src".toList,
    destPath := "dst".toList, capacity := 2 }

/-- An example run whose destination root is `build`. -/
def buildConfig : Config :=
  { binPath := "decompyle3".toList, ctx := { id := 0 }, srcPath := "src".toList,
    destPath := "build".toList, capacity := 2 }

/-- The answers of an environment in which nothing fails, for a file whose path
relative to the source root is `rel`. -/
def allFine (rel : String) : JobOutcome :=
  { rel := .ok rel.toList, mkdirAll := none, run := none }

/-- The tree `src/{a.pyc, sub/{b.pyc, c.txt}}`. -/
def exampleTree : Node :=
  .dir "src".toList none
    [.file "a.pyc".toList, .dir "sub".toList none [.file "b.pyc".toList, .file "c.txt".toList]]

/-- A tree `src/{x, y.pyc}` in which `Lstat` of `x` fails. -/
def lstatFailTree : Node :=
  .dir "src".toList none
    [.bad "x".toList (.sys "lstat src/x: permission denied".toList), .file "y.pyc".toList]

/-- The jobs that have acquired a unit and not yet released it: the started
goroutines whose `sem.Release(1)` is still to come. -/
def outstanding (s : State) : Nat :=
  (s.jobs.filter (fun j => j.contains Event.release)).length

/-- A schedule on `exampleTree` after which both eligible files have a running
job. -/
def busySchedule : List Action :=
  [.visit, .visit, .acquire (allFine "a.pyc"), .visit, .visit, .acquire (allFine "sub/b.pyc")]

/-- A complete schedule on `exampleTree` in which the job of `a.pyc` cannot
create its directory and the transformer fails on `sub/b.pyc`. -/
def failingSchedule : List Action :=
  [.visit, .visit,
   .acquire { rel := .ok "a.pyc".toList,
              mkdirAll := some (.sys "mkdir dst/: permission denied".toList), run := none },
   .visit, .job 0, .visit,
   .acquire { rel := .ok "sub/b.pyc".toList, mkdirAll := none,
              run := some (.sys "exit status 1".toList) },
   .job 1, .job 0, .visit, .job 1, .job 0, .job 0, .job 0, .job 0, .visit]

/-- The state a schedule leads to on `exampleTree` (the initial state when the
schedule cannot be run). -/
def stateAfter (as : List Action) : State :=
  (exec exampleConfig (recursiveRun exampleConfig exampleTree) as).getD
    (recursiveRun exampleConfig exampleTree)

mutual
/-- The number of entries of a tree. -/
def Node.size : Node → Nat
  | .file _ => 1
  | .dir _ _ children => 1 + Node.sizeAll children
  | .bad _ _ => 1
/-- The number of entries of a list of trees. -/
def Node.sizeAll : List Node → Nat
  | [] => 0
  | c :: cs => c.size + Node.sizeAll cs
end

mutual
/-- Every entry that `Walk` reports from this tree comes with its file info: no
`Lstat` fails in a directory that `Walk` reads. -/
def Node.allInfo : Node → Bool
  | .file _ => true
  | .dir _ (some _) _ => true
  | .dir _ none children => Node.allInfoAll children
  | .bad _ _ => false
/-- The same for a list of trees. -/
def Node.allInfoAll : List Node → Bool
  | [] => true
  | c :: cs => c.allInfo && Node.allInfoAll cs
end

/-- A step that does not end the context. -/
def noCancel : Action → Bool
  | .cancel => false
  | .deadline => false
  | _ => true

/-- The entries the walk still has to visit. -/
def Walker.pending : Walker → List Entry
  | .walking stack => stack
  | .acquiring _ stack => stack
  | .returned _ => []

/-- A bound on the steps the walking goroutine can still cause: eight for every
entry not yet visited (the visit, the acquire, and at most six steps of its
job), seven while it waits in `sem.Acquire`, one for the return. -/
def Walker.remaining : Walker → Nat
  | .walking stack => 8 * Node.sizeAll (stack.map (fun e => e.node)) + 1
  | .acquiring _ stack => 8 * Node.sizeAll (stack.map (fun e => e.node)) + 8
  | .returned _ => 0

/-- A bound on the steps a run can still take without the context ending. -/
def State.remaining (s : State) : Nat :=
  s.walker.remaining + (s.jobs.map (fun j => j.length + 1)).sum

/-! ## Invariants of a run -/

/-- A goroutine that has not released yet: what it still has to do ends with the
deferred `sem.Release(1)` and contains no other release, no acquire and no
start of a goroutine. -/
def HoldsOne (j : List Event) : Prop :=
  ∃ pre, j = pre ++ [.release] ∧ ∀ e ∈ pre, e ≠ Event.release ∧ e ≠ Event.acquire ∧ e ≠ Event.go

/-- The invariant of the admission gate: every unit handed out belongs to one
unfinished goroutine that will release it once, at most `capacity` are handed
out, and acquires, starts and releases are paired. -/
structure Inv (cfg : Config) (s : State) : Prop where
  cur_eq : s.cur = s.jobs.length
  cur_le : s.cur ≤ cfg.capacity
  jobs_hold : ∀ j ∈ s.jobs, HoldsOne j
  paired : s.trace.count .acquire = s.trace.count .release + s.jobs.length
  started : s.trace.count .go = s.trace.count .acquire

/-- The invariant of a run in which the context stays live and every entry has
its file info: the process is alive, the entries to come have their file info,
and if `recursiveRun` has returned, it has returned nil. -/
structure Live (s : State) : Prop where
  alive : s.crashed = false
  ctx_live : s.ctxErr = none
  pending_info : ∀ e ∈ s.walker.pending, e.node.allInfo = true
  result_nil : ∀ r, s.walker = .returned r → r = none

/-! ## Basic facts about the steps -/

theorem jobStatements_plain (cfg : Config) (path : GoString) (o : JobOutcome) :
    ∀ e ∈ jobStatements cfg path o, e ≠ Event.release ∧ e ≠ Event.acquire ∧ e ≠ Event.go := by
  unfold jobStatements
  rcases o with ⟨rel, mk, run⟩
  cases rel <;> cases mk <;> cases run <;> simp [decompile]

theorem jobBody_holdsOne (cfg : Config) (path : GoString) (o : JobOutcome) :
    HoldsOne (jobBody cfg path o) :=
  ⟨jobStatements cfg path o, rfl, jobStatements_plain cfg path o⟩

theorem holdsOne_count {j : List Event} (h : HoldsOne j) : j.count .release = 1 := by
  obtain ⟨pre, rfl, hpre⟩ := h
  have : Event.release ∉ pre := fun hm => (hpre _ hm).1 rfl
  simp [List.count_append, List.count_eq_zero_of_not_mem this]

theorem holdsOne_getLast {j : List Event} (h : HoldsOne j) : j.getLast? = some .release := by
  obtain ⟨pre, rfl, _⟩ := h
  simp

theorem holdsOne_tail {ev : Event} {rest : List Event} (h : HoldsOne (ev :: rest)) :
    (ev = .release ∧ rest = []) ∨
      (ev ≠ .release ∧ ev ≠ .acquire ∧ ev ≠ .go ∧ rest ≠ [] ∧ HoldsOne rest) := by
  obtain ⟨pre, hj, hpre⟩ := h
  cases pre with
  | nil =>
    simp at hj
    exact Or.inl hj
  | cons p pre1 =>
    simp at hj
    obtain ⟨rfl, rfl⟩ := hj
    have h1 := hpre ev (by simp)
    exact Or.inr ⟨h1.1, h1.2.1, h1.2.2, by simp, pre1, rfl, fun e he => hpre e (by simp [he])⟩

theorem count_singleton_ne {a b : Event} (h : b ≠ a) : List.count a [b] = 0 := by
  apply List.count_eq_zero_of_not_mem
  simpa using Ne.symm h

theorem walkFnFilter_logs (ctxErr : Option GoError) (path : GoString) (info : Option FileInfo)
    (err : Option GoError) (e : Event) (he : e ∈ (walkFnFilter ctxErr path info err).1) :
    ∃ m, e = .log m := by
  unfold walkFnFilter at he
  cases ctxErr with
  | some c => simp at he
  | none =>
    cases err with
    | none =>
      cases info with
      | none => simp at he
      | some fi =>
        simp only [] at he
        split_ifs at he <;> simp at he
    | some w =>
      cases info with
      | none =>
        simp at he
        exact ⟨_, he⟩
      | some fi =>
        simp only [] at he
        split_ifs at he <;> simp at he <;> exact ⟨_, he⟩

theorem count_append_logs (t logs : List Event) (e : Event) (he : ∀ m, e ≠ .log m)
    (hl : ∀ x ∈ logs, ∃ m, x = Event.log m) : (t ++ logs).count e = t.count e := by
  have : logs.count e = 0 := by
    apply List.count_eq_zero_of_not_mem
    intro hmem
    obtain ⟨m, hm⟩ := hl e hmem
    exact he m hm
  simp [List.count_append, this]

theorem split_at_get {α : Type} (l : List α) (i : Nat) (x : α) (h : l.get? i = some x) :
    l = l.take i ++ x :: l.drop (i + 1) := by
  induction l generalizing i with
  | nil => simp at h
  | cons a l ih =>
    cases i with
    | zero =>
      simp at h
      simp [h]
    | succ i =>
      have h2 : l.get? i = some x := by simpa using h
      simpa using ih i h2

@[simp] theorem afterCallback_cur (s : State) (stack : List Entry) (r : Ret) :
    (afterCallback s stack r).cur = s.cur := by
  cases r with
  | value e => cases e <;> rfl
  | fault => rfl

@[simp] theorem afterCallback_jobs (s : State) (stack : List Entry) (r : Ret) :
    (afterCallback s stack r).jobs = s.jobs := by
  cases r with
  | value e => cases e <;> rfl
  | fault => rfl

@[simp] theorem afterCallback_trace (s : State) (stack : List Entry) (r : Ret) :
    (afterCallback s stack r).trace = s.trace := by
  cases r with
  | value e => cases e <;> rfl
  | fault => rfl

@[simp] theorem afterCallback_ctxErr (s : State) (stack : List Entry) (r : Ret) :
    (afterCallback s stack r).ctxErr = s.ctxErr := by
  cases r with
  | value e => cases e <;> rfl
  | fault => rfl

/-- What a `visit` step changes: the walker, the crash flag, and log lines. -/
theorem visit_frame (s s1 : State) (h : visit s = some s1) :
    s1.cur = s.cur ∧ s1.jobs = s.jobs ∧ s1.ctxErr = s.ctxErr ∧
      ∃ logs : List Event, s1.trace = s.trace ++ logs ∧ ∀ x ∈ logs, ∃ m, x = Event.log m := by
  unfold visit at h
  cases hw : s.walker with
  | walking stack =>
    rw [hw] at h
    cases stack with
    | nil =>
      simp at h
      subst h
      exact ⟨rfl, rfl, rfl, [], by simp, by simp⟩
    | cons e stack =>
      simp only [] at h
      cases hr : (walkFnFilter s.ctxErr e.path e.report.1 e.report.2.1).2 with
      | none =>
        rw [hr] at h
        simp at h
        subst h
        exact ⟨rfl, rfl, rfl, _, rfl, fun x hx => walkFnFilter_logs _ _ _ _ x hx⟩
      | some ret =>
        rw [hr] at h
        simp at h
        subst h
        exact ⟨by simp, by simp, by simp, _, by simp; rfl,
          fun x hx => walkFnFilter_logs _ _ _ _ x hx⟩
  | acquiring p stack =>
    rw [hw] at h
    simp at h
  | returned e =>
    rw [hw] at h
    simp at h

/-- What a `job` step does: goroutine `j`, between `pre` and `post`, returns or
performs its first operation `ev`. -/
theorem jobStep_cases (s s1 : State) (i : Nat) (h : jobStep s i = some s1) :
    ∃ pre j post, s.jobs = pre ++ j :: post ∧
      ((j = [] ∧ s1 = { s with jobs := pre ++ post }) ∨
        ∃ ev rest, j = ev :: rest ∧
          ((ev = .release ∧ s.cur = 0 ∧ s1 = { s with crashed := true }) ∨
            (ev = .release ∧ s.cur ≠ 0 ∧
              s1 = { s with cur := s.cur - 1,
                            jobs := pre ++ ((if rest = [] then [] else [rest]) ++ post),
                            trace := s.trace ++ [ev] }) ∨
            (ev ≠ .release ∧
              s1 = { s with jobs := pre ++ ((if rest = [] then [] else [rest]) ++ post),
                            trace := s.trace ++ [ev] }))) := by
  unfold jobStep at h
  cases hg : s.jobs.get? i with
  | none =>
    rw [hg] at h
    simp at h
  | some j =>
    rw [hg] at h
    refine ⟨s.jobs.take i, j, s.jobs.drop (i + 1), split_at_get _ _ _ hg, ?_⟩
    cases j with
    | nil =>
      simp at h
      exact Or.inl ⟨rfl, h.symm⟩
    | cons ev rest =>
      refine Or.inr ⟨ev, rest, rfl, ?_⟩
      by_cases hev : ev = .release
      · subst hev
        simp only [] at h
        by_cases hc : s.cur = 0
        · rw [if_pos hc] at h
          simp at h
          exact Or.inl ⟨rfl, hc, h.symm⟩
        · rw [if_neg hc] at h
          simp at h
          exact Or.inr (Or.inl ⟨rfl, hc, h.symm⟩)
      · refine Or.inr (Or.inr ⟨hev, ?_⟩)
        cases ev <;> simp at h hev <;> exact h.symm
/-- What a granted `sem.Acquire` does: one more unit is out, and the goroutine
for `path` is started; the callback returns nil and the walk goes on. -/
theorem acquire_granted (cfg : Config) (s s1 : State) (o : JobOutcome)
    (h : acquire cfg s true o = some s1) :
    ∃ path stack, s.walker = .acquiring path stack ∧ s.cur < cfg.capacity ∧
      s1 = { s with cur := s.cur + 1, trace := s.trace ++ [.acquire, .go],
                    jobs := s.jobs ++ [jobBody cfg path o], walker := .walking stack } := by
  unfold acquire at h
  cases hw : s.walker with
  | walking stack =>
    rw [hw] at h
    simp at h
  | returned e =>
    rw [hw] at h
    simp at h
  | acquiring path stack =>
    rw [hw] at h
    by_cases hc : s.cur < cfg.capacity
    · simp [hc, walkFnDispatch, afterCallback] at h
      exact ⟨path, stack, rfl, hc, h.symm⟩
    · simp [hc] at h

/-- What a failed `sem.Acquire` does: nothing is acquired or started; the
callback returns the wrapped error, which ends the walk. -/
theorem acquire_failed (cfg : Config) (s s1 : State) (o : JobOutcome)
    (h : acquire cfg s false o = some s1) :
    ∃ path stack e, s.walker = .acquiring path stack ∧ s.ctxErr = some e ∧
      s1 = { s with walker := .returned (recursiveRunResult
              (some (fmt.Errorf "failed to acquire semaphore: %w".toList [.err e]))) } := by
  unfold acquire at h
  cases hw : s.walker with
  | walking stack =>
    rw [hw] at h
    simp at h
  | returned e =>
    rw [hw] at h
    simp at h
  | acquiring path stack =>
    rw [hw] at h
    cases hc : s.ctxErr with
    | none =>
      rw [hc] at h
      simp at h
    | some e =>
      rw [hc] at h
      refine ⟨path, stack, e, rfl, rfl, ?_⟩
      simp [walkFnDispatch, afterCallback] at h
      rw [← h]
      rfl

theorem step_crashed (cfg : Config) (s s1 : State) (a : Action) (h : step cfg s a = some s1) :
    s.crashed = false := by
  unfold step at h
  cases hc : s.crashed with
  | false => rfl
  | true => simp [hc] at h

theorem step_cancel (cfg : Config) (s s1 : State) (h : step cfg s .cancel = some s1) :
    s.ctxErr = none ∧ s1 = { s with ctxErr := some .canceled } := by
  have hc := step_crashed cfg s s1 _ h
  by_cases hx : s.ctxErr = none
  · simp only [step, hc, hx] at h
    simp at h
    refine ⟨hx, ?_⟩
    rw [← h, hc]
  · simp [step, hc, hx] at h

theorem step_deadline (cfg : Config) (s s1 : State) (h : step cfg s .deadline = some s1) :
    s.ctxErr = none ∧ s1 = { s with ctxErr := some .deadlineExceeded } := by
  have hc := step_crashed cfg s s1 _ h
  by_cases hx : s.ctxErr = none
  · simp only [step, hc, hx] at h
    simp at h
    refine ⟨hx, ?_⟩
    rw [← h, hc]
  · simp [step, hc, hx] at h

theorem step_visit (cfg : Config) (s s1 : State) (h : step cfg s .visit = some s1) :
    visit s = some s1 := by
  have hc := step_crashed cfg s s1 _ h
  simpa [step, hc] using h

theorem step_acquire (cfg : Config) (s s1 : State) (o : JobOutcome)
    (h : step cfg s (.acquire o) = some s1) : acquire cfg s true o = some s1 := by
  have hc := step_crashed cfg s s1 _ h
  simpa [step, hc] using h

theorem step_acquireFail (cfg : Config) (s s1 : State)
    (h : step cfg s .acquireFail = some s1) :
    acquire cfg s false { rel := .ok [], mkdirAll := none, run := none } = some s1 := by
  have hc := step_crashed cfg s s1 _ h
  simpa [step, hc] using h

theorem step_job (cfg : Config) (s s1 : State) (i : Nat)
    (h : step cfg s (.job i) = some s1) : jobStep s i = some s1 := by
  have hc := step_crashed cfg s s1 _ h
  simpa [step, hc] using h


theorem inv_init (cfg : Config) (tree : Node) : Inv cfg (recursiveRun cfg tree) :=
  { cur_eq := rfl
    cur_le := Nat.zero_le _
    jobs_hold := by
      intro j hj
      simp [recursiveRun] at hj
    paired := rfl
    started := rfl }

theorem inv_step (cfg : Config) (s s1 : State) (a : Action) (hinv : Inv cfg s)
    (h : step cfg s a = some s1) : Inv cfg s1 := by
  cases a with
  | cancel =>
    obtain ⟨_, rfl⟩ := step_cancel cfg s s1 h
    exact ⟨hinv.cur_eq, hinv.cur_le, hinv.jobs_hold, hinv.paired, hinv.started⟩
  | deadline =>
    obtain ⟨_, rfl⟩ := step_deadline cfg s s1 h
    exact ⟨hinv.cur_eq, hinv.cur_le, hinv.jobs_hold, hinv.paired, hinv.started⟩
  | visit =>
    obtain ⟨h1, h2, _, logs, h4, h5⟩ := visit_frame s s1 (step_visit cfg s s1 h)
    refine ⟨?_, ?_, ?_, ?_, ?_⟩
    · rw [h1, h2]
      exact hinv.cur_eq
    · rw [h1]
      exact hinv.cur_le
    · rw [h2]
      exact hinv.jobs_hold
    · rw [h4, h2, count_append_logs _ _ _ (by simp) h5, count_append_logs _ _ _ (by simp) h5]
      exact hinv.paired
    · rw [h4, count_append_logs _ _ _ (by simp) h5, count_append_logs _ _ _ (by simp) h5]
      exact hinv.started
  | acquire o =>
    obtain ⟨path, stack, _, hlt, rfl⟩ := acquire_granted cfg s s1 o (step_acquire cfg s s1 o h)
    refine ⟨?_, ?_, ?_, ?_, ?_⟩
    · simp [hinv.cur_eq]
    · exact hlt
    · intro j hj
      simp at hj
      rcases hj with hj | hj
      · exact hinv.jobs_hold j hj
      · rw [hj]
        exact jobBody_holdsOne cfg path o
    · have := hinv.paired
      simp [List.count_append]
      omega
    · have := hinv.started
      simp [List.count_append]
      omega
  | acquireFail =>
    obtain ⟨path, stack, e, _, _, rfl⟩ := acquire_failed cfg s s1 _ (step_acquireFail cfg s s1 h)
    exact ⟨hinv.cur_eq, hinv.cur_le, hinv.jobs_hold, hinv.paired, hinv.started⟩
  | job i =>
    obtain ⟨pre, j, post, hjobs, hcase⟩ := jobStep_cases s s1 i (step_job cfg s s1 i h)
    have hcur := hinv.cur_eq
    have hle := hinv.cur_le
    have hpair := hinv.paired
    have hst := hinv.started
    have hj : HoldsOne j := hinv.jobs_hold j (by simp [hjobs])
    have hpre : ∀ x ∈ pre, HoldsOne x := fun x hx => hinv.jobs_hold x (by simp [hjobs, hx])
    have hpost : ∀ x ∈ post, HoldsOne x := fun x hx => hinv.jobs_hold x (by simp [hjobs, hx])
    rw [hjobs] at hcur hpair
    simp at hcur hpair
    rcases hcase with ⟨rfl, _⟩ | ⟨ev, rest, rfl, hcase⟩
    · obtain ⟨p, hp, _⟩ := hj
      simp at hp
    · rcases holdsOne_tail hj with ⟨rfl, rfl⟩ | ⟨hne, hna, hng, hrest, hhold⟩
      · rcases hcase with ⟨_, h0, _⟩ | ⟨_, _, rfl⟩ | ⟨hne, _⟩
        · omega
        · refine ⟨?_, ?_, ?_, ?_, ?_⟩
          · simp
            omega
          · simp
            omega
          · intro x hx
            simp at hx
            rcases hx with hx | hx
            · exact hpre x hx
            · exact hpost x hx
          · simp [List.count_append]
            omega
          · simp [List.count_append]
            exact hst
        · exact absurd rfl hne
      · rcases hcase with ⟨h0, _⟩ | ⟨h0, _⟩ | ⟨_, rfl⟩
        · exact absurd h0 hne
        · exact absurd h0 hne
        · refine ⟨?_, ?_, ?_, ?_, ?_⟩
          · simp [hrest]
            omega
          · exact hle
          · intro x hx
            simp [hrest] at hx
            rcases hx with hx | hx | hx
            · exact hpre x hx
            · rw [hx]
              exact hhold
            · exact hpost x hx
          · simp [List.count_append, hrest, count_singleton_ne hne, count_singleton_ne hna]
            omega
          · simp [List.count_append, count_singleton_ne hna, count_singleton_ne hng]
            exact hst

/-- The invariant holds in every state a run reaches. -/
theorem inv_exec (cfg : Config) (s s1 : State) (as : List Action) (hinv : Inv cfg s)
    (h : exec cfg s as = some s1) : Inv cfg s1 := by
  induction as generalizing s with
  | nil =>
    simp [exec] at h
    subst h
    exact hinv
  | cons a as ih =>
    simp only [exec] at h
    cases hs : step cfg s a with
    | none => simp [hs] at h
    | some s2 =>
      rw [hs] at h
      exact ih s2 (inv_step cfg s s2 a hinv hs) h

/-! ## Runs without cancellation -/

theorem sizeAll_append (a b : List Node) :
    Node.sizeAll (a ++ b) = Node.sizeAll a + Node.sizeAll b := by
  induction a with
  | nil => simp [Node.sizeAll]
  | cons x a ih =>
    simp [Node.sizeAll, ih]
    omega

theorem allInfoAll_mem (cs : List Node) (h : Node.allInfoAll cs = true) :
    ∀ c ∈ cs, c.allInfo = true := by
  induction cs with
  | nil => simp
  | cons x cs ih =>
    simp [Node.allInfoAll] at h
    intro c hc
    simp at hc
    rcases hc with rfl | hc
    · exact h.1
    · exact ih h.2 c hc

theorem report_children_size (e : Entry) :
    Node.sizeAll (e.report.2.2.map (fun c => c.node)) + 1 ≤ e.node.size := by
  rcases e with ⟨p, n⟩
  cases n with
  | file nm => simp [Entry.report, Node.size, Node.sizeAll]
  | bad nm er => simp [Entry.report, Node.size, Node.sizeAll]
  | dir nm readErr cs =>
    cases readErr with
    | some er => simp [Entry.report, Node.size, Node.sizeAll]
    | none =>
      simp [Entry.report, Node.size, List.map_map, Function.comp_def]
      omega

theorem report_children_info (e : Entry) (h : e.node.allInfo = true) :
    ∀ c ∈ e.report.2.2, c.node.allInfo = true := by
  rcases e with ⟨p, n⟩
  cases n with
  | file nm => simp [Entry.report]
  | bad nm er => simp [Entry.report]
  | dir nm readErr cs =>
    cases readErr with
    | some er => simp [Entry.report]
    | none =>
      simp [Node.allInfo] at h
      intro c hc
      simp [Entry.report] at hc
      obtain ⟨x, hx, rfl⟩ := hc
      exact allInfoAll_mem cs h x hx

/-- The callback on an entry with file info, under a live context: it does not
fault, and it returns nil or goes on to `sem.Acquire`; only an entry without
children goes on to `sem.Acquire`. -/
theorem filter_live (e : Entry) (h : e.node.allInfo = true) :
    (walkFnFilter none e.path e.report.1 e.report.2.1).2 = some (.value none) ∨
      ((walkFnFilter none e.path e.report.1 e.report.2.1).2 = none ∧ e.report.2.2 = []) := by
  rcases e with ⟨p, n⟩
  cases n with
  | file nm =>
    by_cases hx : filepath.Ext p = ['.', 'p', 'y', 'c']
    · right
      simp [Entry.report, walkFnFilter, hx]
    · left
      simp [Entry.report, walkFnFilter, hx]
  | bad nm er => simp [Node.allInfo] at h
  | dir nm readErr cs =>
    left
    cases readErr <;> simp [Entry.report, walkFnFilter]

theorem jobBody_length (cfg : Config) (path : GoString) (o : JobOutcome) :
    (jobBody cfg path o).length ≤ 5 := by
  unfold jobBody jobStatements
  rcases o with ⟨rel, mk, run⟩
  cases rel <;> cases mk <;> cases run <;> simp [decompile]

theorem visit_isSome (s : State) (stack : List Entry) (hw : s.walker = .walking stack) :
    (visit s).isSome = true := by
  unfold visit
  rw [hw]
  cases stack with
  | nil => simp
  | cons e stack =>
    simp only []
    cases (walkFnFilter s.ctxErr e.path e.report.1 e.report.2.1).2 <;> simp

/-- A step other than the end of the context keeps the invariant `Live` and
uses up the bound. -/
theorem live_step (cfg : Config) (s s1 : State) (a : Action) (hinv : Inv cfg s) (hl : Live s)
    (ha : noCancel a = true) (h : step cfg s a = some s1) :
    Live s1 ∧ s1.remaining < s.remaining := by
  cases a with
  | cancel => simp [noCancel] at ha
  | deadline => simp [noCancel] at ha
  | visit =>
    have hv := step_visit cfg s s1 h
    unfold visit at hv
    cases hw : s.walker with
    | acquiring p stack =>
      rw [hw] at hv
      simp at hv
    | returned r =>
      rw [hw] at hv
      simp at hv
    | walking stack =>
      rw [hw] at hv
      cases stack with
      | nil =>
        simp at hv
        subst hv
        refine ⟨⟨hl.alive, hl.ctx_live, by simp [Walker.pending], ?_⟩, ?_⟩
        · intro r hr
          simp [recursiveRunResult] at hr
          exact hr.symm
        · simp [State.remaining, hw, Walker.remaining]
      | cons e stack =>
        have he : e.node.allInfo = true := hl.pending_info e (by simp [hw, Walker.pending])
        have hst : ∀ x ∈ stack, x.node.allInfo = true :=
          fun x hx => hl.pending_info x (by simp [hw, Walker.pending, hx])
        have hsz := report_children_size e
        rw [hl.ctx_live] at hv
        simp only [] at hv
        rcases filter_live e he with hf | ⟨hf, hnil⟩
        · rw [hf] at hv
          simp [afterCallback] at hv
          subst hv
          refine ⟨⟨hl.alive, rfl, ?_, by simp⟩, ?_⟩
          · intro x hx
            simp [Walker.pending] at hx
            rcases hx with hx | hx
            · exact report_children_info e he x hx
            · exact hst x hx
          · simp [State.remaining, hw, Walker.remaining, sizeAll_append, Node.sizeAll]
            omega
        · rw [hf] at hv
          simp at hv
          subst hv
          refine ⟨⟨hl.alive, rfl, ?_, by simp⟩, ?_⟩
          · intro x hx
            simp [Walker.pending, hnil] at hx
            exact hst x hx
          · simp [State.remaining, hw, Walker.remaining, hnil, Node.sizeAll]
            omega
  | acquire o =>
    obtain ⟨path, stack, hw, _, rfl⟩ := acquire_granted cfg s s1 o (step_acquire cfg s s1 o h)
    refine ⟨⟨hl.alive, hl.ctx_live, ?_, by simp⟩, ?_⟩
    · intro x hx
      exact hl.pending_info x (by simpa [hw, Walker.pending] using hx)
    · have := jobBody_length cfg path o
      simp [State.remaining, hw, Walker.remaining]
      omega
  | acquireFail =>
    obtain ⟨path, stack, e, _, hctx, _⟩ :=
      acquire_failed cfg s s1 _ (step_acquireFail cfg s s1 h)
    rw [hl.ctx_live] at hctx
    simp at hctx
  | job i =>
    obtain ⟨pre, j, post, hjobs, hcase⟩ := jobStep_cases s s1 i (step_job cfg s s1 i h)
    have hcur := hinv.cur_eq
    rw [hjobs] at hcur
    simp at hcur
    rcases hcase with ⟨rfl, rfl⟩ | ⟨ev, rest, rfl, ⟨_, h0, _⟩ | ⟨_, _, rfl⟩ | ⟨_, rfl⟩⟩
    · refine ⟨⟨hl.alive, hl.ctx_live, hl.pending_info, hl.result_nil⟩, ?_⟩
      simp [State.remaining, hjobs]
    · omega
    · refine ⟨⟨hl.alive, hl.ctx_live, hl.pending_info, hl.result_nil⟩, ?_⟩
      by_cases hr : rest = []
      · simp [State.remaining, hjobs, hr]
      · simp [State.remaining, hjobs, hr]
    · refine ⟨⟨hl.alive, hl.ctx_live, hl.pending_info, hl.result_nil⟩, ?_⟩
      by_cases hr : rest = []
      · simp [State.remaining, hjobs, hr]
      · simp [State.remaining, hjobs, hr]

theorem live_exec (cfg : Config) (s s1 : State) (as : List Action) (hinv : Inv cfg s)
    (hl : Live s) (hnc : ∀ a ∈ as, noCancel a = true) (h : exec cfg s as = some s1) :
    Live s1 ∧ as.length + s1.remaining ≤ s.remaining := by
  induction as generalizing s with
  | nil =>
    simp [exec] at h
    subst h
    exact ⟨hl, by simp⟩
  | cons a as ih =>
    simp only [exec] at h
    cases hs : step cfg s a with
    | none => simp [hs] at h
    | some s2 =>
      rw [hs] at h
      have h1 := live_step cfg s s2 a hinv hl (hnc a (by simp)) hs
      have h2 := ih s2 (inv_step cfg s s2 a hinv hs) h1.1
        (fun x hx => hnc x (by simp [hx])) h
      refine ⟨h2.1, ?_⟩
      simp
      omega

/-- While `recursiveRun` has not returned, some step other than the end of the
context is possible: the walk goes on, or `sem.Acquire` is granted, or, with all
units out, a job runs. -/
theorem live_progress (cfg : Config) (s : State) (hinv : Inv cfg s) (hl : Live s)
    (hcap : 0 < cfg.capacity) :
    s.walker = .returned none ∨ ∃ a, noCancel a = true ∧ (step cfg s a).isSome = true := by
  cases hw : s.walker with
  | returned r =>
    left
    rw [hl.result_nil r hw]
  | walking stack =>
    right
    refine ⟨.visit, rfl, ?_⟩
    simp only [step, hl.alive]
    simpa using visit_isSome s stack hw
  | acquiring p stack =>
    right
    by_cases hc : s.cur < cfg.capacity
    · refine ⟨.acquire { rel := .ok [], mkdirAll := none, run := none }, rfl, ?_⟩
      simp [step, hl.alive, acquire, hw, hc]
    · refine ⟨.job 0, rfl, ?_⟩
      have hlen : 0 < s.jobs.length := by
        rw [← hinv.cur_eq]
        omega
      cases hj : s.jobs with
      | nil => simp [hj] at hlen
      | cons j js =>
        have hcur : s.cur ≠ 0 := by omega
        cases j with
        | nil => simp [step, hl.alive, jobStep, hj]
        | cons ev rest => cases ev <;> simp [step, hl.alive, jobStep, hj, hcur]

/-! ## Cancellation -/

/-- The callback called under a cancelled context returns `ctx.Err()` at line 48;
`Walk` stops and `recursiveRun` returns that error wrapped. -/
theorem visit_cancelled (s : State) (e : GoError) (entry : Entry) (stack : List Entry)
    (hctx : s.ctxErr = some e) (hw : s.walker = .walking (entry :: stack)) :
    visit s = some { s with
      walker := .returned (some (.wrapped ("error in filepath walk: ".toList ++ e.Error) e)) } := by
  unfold visit
  rw [hw]
  simp [walkFnFilter, hctx, afterCallback, recursiveRunResult, fmt.Errorf, fmt.wrapOperand,
    fmt.Sprintf, fmt.Arg.format]

/-- Once `recursiveRun` has returned, no step visits an entry, acquires a unit
or starts a job. -/
theorem returned_step (cfg : Config) (s s1 : State) (a : Action) (r : Option GoError)
    (hinv : Inv cfg s) (hw : s.walker = .returned r) (h : step cfg s a = some s1) :
    s1.walker = .returned r ∧ s1.trace.count .go = s.trace.count .go ∧
      s1.trace.count .acquire = s.trace.count .acquire := by
  cases a with
  | cancel =>
    obtain ⟨_, rfl⟩ := step_cancel cfg s s1 h
    exact ⟨hw, rfl, rfl⟩
  | deadline =>
    obtain ⟨_, rfl⟩ := step_deadline cfg s s1 h
    exact ⟨hw, rfl, rfl⟩
  | visit =>
    have hv := step_visit cfg s s1 h
    unfold visit at hv
    rw [hw] at hv
    simp at hv
  | acquire o =>
    obtain ⟨path, stack, hw2, _, _⟩ := acquire_granted cfg s s1 o (step_acquire cfg s s1 o h)
    rw [hw] at hw2
    simp at hw2
  | acquireFail =>
    obtain ⟨path, stack, e, hw2, _, _⟩ :=
      acquire_failed cfg s s1 _ (step_acquireFail cfg s s1 h)
    rw [hw] at hw2
    simp at hw2
  | job i =>
    obtain ⟨pre, j, post, hjobs, hcase⟩ := jobStep_cases s s1 i (step_job cfg s s1 i h)
    have hj : HoldsOne j := hinv.jobs_hold j (by simp [hjobs])
    rcases hcase with ⟨_, rfl⟩ | ⟨ev, rest, rfl, ⟨_, _, rfl⟩ | ⟨rfl, _, rfl⟩ | ⟨hne, rfl⟩⟩
    · exact ⟨hw, rfl, rfl⟩
    · exact ⟨hw, rfl, rfl⟩
    · exact ⟨hw, by simp [List.count_append], by simp [List.count_append]⟩
    · rcases holdsOne_tail hj with ⟨h0, _⟩ | ⟨_, hna, hng, _, _⟩
      · exact absurd h0 hne
      · exact ⟨hw, by simp [List.count_append, count_singleton_ne hng],
          by simp [List.count_append, count_singleton_ne hna]⟩

theorem returned_exec (cfg : Config) (s s1 : State) (as : List Action) (r : Option GoError)
    (hinv : Inv cfg s) (hw : s.walker = .returned r) (h : exec cfg s as = some s1) :
    s1.walker = .returned r ∧ s1.trace.count .go = s.trace.count .go ∧
      s1.trace.count .acquire = s.trace.count .acquire := by
  induction as generalizing s with
  | nil =>
    simp [exec] at h
    subst h
    exact ⟨hw, rfl, rfl⟩
  | cons a as ih =>
    simp only [exec] at h
    cases hs : step cfg s a with
    | none => simp [hs] at h
    | some s2 =>
      rw [hs] at h
      obtain ⟨h1, h2, h3⟩ := returned_step cfg s s2 a r hinv hw hs
      obtain ⟨h4, h5, h6⟩ := ih s2 (inv_step cfg s s2 a hinv hs) h1 h
      exact ⟨h4, by rw [h5, h2], by rw [h6, h3]⟩

theorem returned_no_walk (cfg : Config) (s : State) (r : Option GoError)
    (hw : s.walker = .returned r) :
    step cfg s .visit = none ∧ (∀ o, step cfg s (.acquire o) = none) ∧
      step cfg s .acquireFail = none := by
  refine ⟨?_, ?_, ?_⟩
  · unfold step visit
    rw [hw]
    simp
  · intro o
    unfold step acquire
    rw [hw]
    simp
  · unfold step acquire
    rw [hw]
    simp

theorem step_visit_eq (cfg : Config) (s : State) (h : s.crashed = false) :
    step cfg s .visit = visit s := by
  simp [step, h]
/-! ## The transformer invocation -/

/-- C10: for every source path `S` and destination path `T`, `decompile` runs the
configured binary with exactly the arguments `["-o", T, S]`, bound to the given
context; it returns nil if and only if that run succeeds, and otherwise an error
that wraps the cause and whose message is "failed to decompile S: " followed by
the message of the cause. -/
theorem decompile_runs_transformer (binPath : GoString) (ctx : Context) (S T : GoString)
    (r : Option GoError) (cause : GoError) :
    (decompile binPath ctx S T r).1 =
        { ctx := ctx, name := binPath, args := ["-o".toList, T, S] } ∧
      ((decompile binPath ctx S T r).2 = none ↔ r = none) ∧
      (decompile binPath ctx S T (some cause)).2 =
        some (.wrapped ("failed to decompile ".toList ++ S ++ ": ".toList ++ cause.Error) cause) ∧
      (decompile binPath ctx S T (some cause)).2.map GoError.Unwrap = some (some cause) ∧
      (decompile binPath ctx S T (some cause)).2.map GoError.Error =
        some ("failed to decompile ".toList ++ S ++ ": ".toList ++ cause.Error) := by
  refine ⟨?_, ?_, ?_, ?_, ?_⟩
  · cases r <;> rfl
  · cases r <;> simp [decompile]
  · simp [decompile, fmt.Errorf, fmt.wrapOperand, fmt.Sprintf, fmt.Arg.format]
  · simp [decompile, fmt.Errorf, fmt.wrapOperand, GoError.Unwrap]
  · simp [decompile, fmt.Errorf, fmt.wrapOperand, fmt.Sprintf, fmt.Arg.format, GoError.Error]

/-! ## Destination paths -/

/-- C4 (evaluation at the failing input): with destination root `dst`, the file
`src/copy.pyc` (relative path `copy.pyc`) is decompiled to `dst/co.py`, not to
`dst/copy.py`: `strings.Trim` removes every trailing character of the set
`.pyc`, not the suffix `.pyc`.  The two files of the example in the specification
come out as expected. -/
theorem newExtension_trims_cutset :
    jobBody exampleConfig "src/copy.pyc".toList (allFine "copy.pyc") =
        [.mkdirAll "dst/".toList 0o775,
         .run { ctx := { id := 0 }, name := "decompyle3".toList,
                args := ["-o".toList, "dst/co.py".toList, "src/copy.pyc".toList] },
         .release] ∧
      newExtension (filepath.Join ["dst".toList, "copy.pyc".toList]) = "dst/co.py".toList ∧
      specDestination "dst".toList "copy.pyc".toList = "dst/copy.py".toList ∧
      newExtension (filepath.Join ["dst".toList, "a.pyc".toList]) = "dst/a.py".toList ∧
      newExtension (filepath.Join ["dst".toList, "sub/b.pyc".toList]) = "dst/sub/b.py".toList := by
  decide

/-- C5 (evaluation at the failing input): with destination root `build`, the job
for `src/b.pyc` (relative path `b.pyc`) asks `os.MkdirAll` for `uild/`, which is
not the parent directory `build` of `build/b.pyc`, with or without a trailing
separator: `strings.Trim` also removes the leading `b`. -/
theorem dirsOnly_trims_leading :
    jobBody buildConfig "src/b.pyc".toList (allFine "b.pyc") =
        [.mkdirAll "uild/".toList 0o775,
         .run { ctx := { id := 0 }, name := "decompyle3".toList,
                args := ["-o".toList, "build/b.py".toList, "src/b.pyc".toList] },
         .release] ∧
      dirsOnly (filepath.Join ["build".toList, "b.pyc".toList]) = "uild/".toList ∧
      filepath.Dir (filepath.Join ["build".toList, "b.pyc".toList]) = "build".toList ∧
      ¬ specParentDir "build".toList "b.pyc".toList
          (dirsOnly (filepath.Join ["build".toList, "b.pyc".toList])) ∧
      specParentDir "dst".toList "sub/b.pyc".toList
          (dirsOnly (filepath.Join ["dst".toList, "sub/b.pyc".toList])) := by
  decide

/-! ## The walk callback -/

/-- C3: for an entry reported without error (so with its file info) while the
context is live, the callback returns nil, and it acquires a unit and starts a
goroutine if and only if the entry is not a directory and `filepath.Ext(path)`
is exactly `.pyc`; otherwise it does nothing at all.  (`sem.Acquire` cannot fail
while the context is live.) -/
theorem walkFn_dispatches_iff_pyc (cfg : Config) (o : JobOutcome) (path : GoString)
    (fi : FileInfo) :
    (walkFn cfg none none o path (some fi) none).ret = .value none ∧
      ((walkFn cfg none none o path (some fi) none).events = [.acquire, .go] ∧
          (walkFn cfg none none o path (some fi) none).spawned = some (jobBody cfg path o) ↔
        (fi.isDir = false ∧ filepath.Ext path = ".pyc".toList)) ∧
      ((walkFn cfg none none o path (some fi) none).events = [] ∧
          (walkFn cfg none none o path (some fi) none).spawned = none ↔
        ¬ (fi.isDir = false ∧ filepath.Ext path = ".pyc".toList)) ∧
      (∀ s : State, s.ctxErr = none → step cfg s .acquireFail = none) := by
  have hfail : ∀ s : State, s.ctxErr = none → step cfg s .acquireFail = none := by
    intro s hs
    unfold step acquire
    cases hw : s.walker <;> simp [hs]
  have hlit : ".pyc".toList = ['.', 'p', 'y', 'c'] := rfl
  rw [hlit]
  refine ⟨?_, ?_, ?_, hfail⟩
  all_goals
    rcases fi with ⟨d⟩
    cases d
    · by_cases hx : filepath.Ext path = ['.', 'p', 'y', 'c']
      · simp [walkFn, walkFnFilter, walkFnDispatch, hx]
      · simp [walkFn, walkFnFilter, hx]
    · simp [walkFn, walkFnFilter]

/-- C9 (evaluation at the failing input): for an entry reported with an error and
without file info (here `src/x`, whose `Lstat` fails) the callback logs the
error and then faults on `info.IsDir()`; in the run the process dies there, and
the next entry `src/y.pyc` is never visited. -/
theorem walkFn_faults_without_info :
    (walkFn exampleConfig none none (allFine "x") "src/x".toList none
        (some (.sys "lstat src/x: permission denied".toList))).ret = .fault ∧
      (walkFn exampleConfig none none (allFine "x") "src/x".toList none
        (some (.sys "lstat src/x: permission denied".toList))).events =
        [.log "Error while walking file tree: lstat src/x: permission denied".toList] ∧
      (exec exampleConfig (recursiveRun exampleConfig lstatFailTree) [.visit, .visit]).map
        (fun s => (s.crashed, s.trace)) =
        some (true, [.log "Error while walking file tree: lstat src/x: permission denied".toList]) ∧
      (exec exampleConfig (recursiveRun exampleConfig lstatFailTree)
        [.visit, .visit, .visit]).isNone = true := by
  decide

/-! ## The admission gate -/

/-- C1: in every state a run of `recursiveRun` reaches, every job body performs
exactly one `sem.Release(1)`, as its last operation, whatever the results of
`filepath.Rel`, `os.MkdirAll` and the transformer; every unfinished job still
has exactly one release to do; a failed `sem.Acquire` starts no job and releases
nothing; as many jobs were started as acquires succeeded; and the successful
acquires are the releases plus the unfinished jobs, so that they are equal once
all jobs have finished. -/
theorem release_paired_with_acquire (cfg : Config) (tree : Node) (as : List Action) (s : State)
    (h : exec cfg (recursiveRun cfg tree) as = some s) :
    (∀ path o, (jobBody cfg path o).count .release = 1 ∧
        (jobBody cfg path o).getLast? = some .release) ∧
      (∀ j ∈ s.jobs, j.count .release = 1) ∧
      (∀ s1, step cfg s .acquireFail = some s1 →
        s1.jobs = s.jobs ∧ s1.trace = s.trace ∧ s1.cur = s.cur) ∧
      s.trace.count .go = s.trace.count .acquire ∧
      s.trace.count .acquire = s.trace.count .release + s.jobs.length ∧
      (s.jobs = [] → s.trace.count .acquire = s.trace.count .release) := by
  have hinv := inv_exec cfg _ s as (inv_init cfg tree) h
  refine ⟨?_, ?_, ?_, hinv.started, hinv.paired, ?_⟩
  · intro path o
    exact ⟨holdsOne_count (jobBody_holdsOne cfg path o),
      holdsOne_getLast (jobBody_holdsOne cfg path o)⟩
  · intro j hj
    exact holdsOne_count (hinv.jobs_hold j hj)
  · intro s1 h1
    obtain ⟨path, stack, e, _, _, rfl⟩ := acquire_failed cfg s s1 _ (step_acquireFail cfg s s1 h1)
    exact ⟨rfl, rfl, rfl⟩
  · intro hj
    have := hinv.paired
    simpa [hj] using this

/-- The run `failingSchedule` reaches a state with no unfinished job, two
successful acquires and as many releases. -/
theorem release_paired_with_acquire_witness :
    ∃ s, exec exampleConfig (recursiveRun exampleConfig exampleTree) failingSchedule = some s ∧
      s.jobs = [] ∧ s.trace.count .acquire = 2 ∧
      s.trace.count .acquire = s.trace.count .release :=
  ⟨_, rfl, rfl, rfl,
    (release_paired_with_acquire exampleConfig exampleTree failingSchedule _ rfl).2.2.2.2.2 rfl⟩

/-- C2: in every state a run of `recursiveRun` reaches, under any interleaving of
walk steps and job steps and whatever fails in the jobs, the number of jobs that
have acquired a unit and not yet released it is the weight the semaphore has
handed out, and it is at most the capacity the semaphore was created with. -/
theorem outstanding_le_capacity (cfg : Config) (tree : Node) (as : List Action) (s : State)
    (h : exec cfg (recursiveRun cfg tree) as = some s) :
    outstanding s ≤ cfg.capacity ∧ outstanding s = s.cur ∧ outstanding s = s.jobs.length := by
  have hinv := inv_exec cfg _ s as (inv_init cfg tree) h
  have hall : outstanding s = s.jobs.length := by
    unfold outstanding
    rw [List.filter_eq_self.mpr]
    intro j hj
    obtain ⟨pre, rfl, _⟩ := hinv.jobs_hold j hj
    simp
  refine ⟨?_, ?_, hall⟩
  · rw [hall, ← hinv.cur_eq]
    exact hinv.cur_le
  · rw [hall, hinv.cur_eq]

/-- The run `busySchedule` reaches a state with two jobs outstanding, the
capacity of the example. -/
theorem outstanding_le_capacity_witness :
    ∃ s, exec exampleConfig (recursiveRun exampleConfig exampleTree) busySchedule = some s ∧
      outstanding s = 2 ∧ outstanding s ≤ exampleConfig.capacity :=
  ⟨_, rfl, rfl,
    (outstanding_le_capacity exampleConfig exampleTree busySchedule _ rfl).1⟩

/-! ## The result of a run -/

/-- What a job does when `filepath.Rel` fails: it logs the failure and returns,
the deferred release being all that is left. -/
theorem jobBody_rel_error (cfg : Config) (path : GoString) (e : GoError)
    (m r : Option GoError) :
    jobBody cfg path { rel := .error e, mkdirAll := m, run := r } =
      [.log ("Failed to get relative path of ".toList ++ path ++ ": ".toList ++ e.Error),
       .release] := by
  simp [jobBody, jobStatements, fmt.Sprintf, fmt.Arg.format]

/-- What a job does when `filepath.Rel` succeeds: one `os.MkdirAll`, whose failure
is logged; then one run of the transformer, whose failure is logged; then the
release. -/
theorem jobBody_rel_ok (cfg : Config) (path R : GoString) (m r : Option GoError) :
    jobBody cfg path { rel := .ok R, mkdirAll := m, run := r } =
      [.mkdirAll (dirsOnly (filepath.Join [cfg.destPath, R])) 0o775] ++
        m.toList.map (fun e => Event.log
          ("Failed to create destination dir ".toList ++
            dirsOnly (filepath.Join [cfg.destPath, R]) ++ ": ".toList ++ e.Error)) ++
        [.run { ctx := cfg.ctx, name := cfg.binPath,
                args := ["-o".toList, newExtension (filepath.Join [cfg.destPath, R]), path] }] ++
        r.toList.map (fun e => Event.log
          ("failed to decompile ".toList ++ path ++ ": ".toList ++ e.Error)) ++
        [.release] := by
  cases m <;> cases r <;>
    simp [jobBody, jobStatements, decompile, exec.CommandContext, fmt.Errorf, fmt.wrapOperand,
      fmt.Sprintf, fmt.Arg.format, GoError.Error]

/-- A step of a job leaves the walking goroutine and the context as they are,
and, in a state that satisfies the invariant, does not kill the process. -/
theorem job_step_frame (cfg : Config) (s s1 : State) (i : Nat) (hinv : Inv cfg s)
    (h : step cfg s (.job i) = some s1) :
    s1.walker = s.walker ∧ s1.ctxErr = s.ctxErr ∧ s1.crashed = false := by
  have halive := step_crashed cfg s s1 _ h
  obtain ⟨pre, j, post, hjobs, hcase⟩ := jobStep_cases s s1 i (step_job cfg s s1 i h)
  have hcur := hinv.cur_eq
  rw [hjobs] at hcur
  simp at hcur
  rcases hcase with ⟨_, rfl⟩ | ⟨ev, rest, _, ⟨_, h0, _⟩ | ⟨_, _, rfl⟩ | ⟨_, rfl⟩⟩
  · exact ⟨rfl, rfl, halive⟩
  · omega
  · exact ⟨rfl, rfl, halive⟩
  · exact ⟨rfl, rfl, halive⟩

/-- `sem.Acquire` failing under a cancelled context: the callback returns the
error wrapped (line 61), `Walk` stops and `recursiveRun` returns it wrapped
again (line 85). -/
theorem acquireFail_cancelled (cfg : Config) (s : State) (e : GoError) (path : GoString)
    (stack : List Entry) (halive : s.crashed = false) (hctx : s.ctxErr = some e)
    (hw : s.walker = .acquiring path stack) :
    step cfg s .acquireFail = some { s with
      walker := .returned (some (.wrapped
        ("error in filepath walk: failed to acquire semaphore: ".toList ++ e.Error)
        (.wrapped ("failed to acquire semaphore: ".toList ++ e.Error) e))) } := by
  simp [step, halive, acquire, hw, hctx, walkFnDispatch, afterCallback, recursiveRunResult,
    fmt.Errorf, fmt.wrapOperand, fmt.Sprintf, fmt.Arg.format, GoError.Error]

/-- C6: in a run in which the context is never ended and every entry comes with
its file info, whatever `filepath.Rel`, `os.MkdirAll` and the transformer answer
in the jobs: the process does not fault; if `recursiveRun` has returned, it has
returned nil; the run has taken at most `8 * size + 1` steps; and, with a
semaphore of positive capacity, as long as `recursiveRun` has not returned nil
some step is possible.  So every such run that is continued until no step is
left ends with `recursiveRun` returning nil.  A failure in a job is only logged:
when `filepath.Rel` fails the job logs "Failed to get relative path of" with the
path and the error and does nothing else before its release; otherwise it calls
`os.MkdirAll` once, logs "Failed to create destination dir" with the directory
and the error if that fails, runs the transformer once all the same, logs
"failed to decompile" with the path and the cause if that fails, and releases;
and no step of a job touches the walking goroutine, the context or the value
`recursiveRun` returns. -/
theorem job_failures_leave_result_nil (cfg : Config) (tree : Node) (as : List Action)
    (s : State) (hinfo : tree.allInfo = true) (hnc : ∀ a ∈ as, noCancel a = true)
    (h : exec cfg (recursiveRun cfg tree) as = some s) :
    s.crashed = false ∧
      (∀ r, s.walker = .returned r → r = none) ∧
      as.length + s.remaining ≤ 8 * tree.size + 1 ∧
      (0 < cfg.capacity →
        s.walker = .returned none ∨ ∃ a, noCancel a = true ∧ (step cfg s a).isSome = true) ∧
      (∀ path e m r,
        jobBody cfg path { rel := .error e, mkdirAll := m, run := r } =
          [.log ("Failed to get relative path of ".toList ++ path ++ ": ".toList ++ e.Error),
           .release]) ∧
      (∀ path R m r,
        jobBody cfg path { rel := .ok R, mkdirAll := m, run := r } =
          [.mkdirAll (dirsOnly (filepath.Join [cfg.destPath, R])) 0o775] ++
            m.toList.map (fun e => Event.log
              ("Failed to create destination dir ".toList ++
                dirsOnly (filepath.Join [cfg.destPath, R]) ++ ": ".toList ++ e.Error)) ++
            [.run { ctx := cfg.ctx, name := cfg.binPath,
                    args := ["-o".toList, newExtension (filepath.Join [cfg.destPath, R]),
                             path] }] ++
            r.toList.map (fun e => Event.log
              ("failed to decompile ".toList ++ path ++ ": ".toList ++ e.Error)) ++
            [.release]) ∧
      (∀ i s1, step cfg s (.job i) = some s1 →
        s1.walker = s.walker ∧ s1.ctxErr = s.ctxErr ∧ s1.crashed = false) := by
  have hinv0 := inv_init cfg tree
  have hl0 : Live (recursiveRun cfg tree) := by
    refine ⟨rfl, rfl, ?_, ?_⟩
    · intro e he
      simp [recursiveRun, Walker.pending] at he
      subst he
      exact hinfo
    · intro r hr
      simp [recursiveRun] at hr
  have hinv := inv_exec cfg _ s as hinv0 h
  obtain ⟨hl, hbound⟩ := live_exec cfg _ s as hinv0 hl0 hnc h
  refine ⟨hl.alive, hl.result_nil, ?_, fun hcap => live_progress cfg s hinv hl hcap,
    jobBody_rel_error cfg, jobBody_rel_ok cfg, fun i s1 h1 => job_step_frame cfg s s1 i hinv h1⟩
  have h0 : (recursiveRun cfg tree).remaining = 8 * tree.size + 1 := by
    simp [State.remaining, recursiveRun, Walker.remaining, Node.sizeAll]
  omega

/-- The run `failingSchedule`, in which `os.MkdirAll` fails in one job and the
transformer in the other, ends with `recursiveRun` returning nil; each failure
has left one log line, and both jobs have run the transformer and released. -/
theorem job_failures_leave_result_nil_witness :
    ∃ s, exec exampleConfig (recursiveRun exampleConfig exampleTree) failingSchedule = some s ∧
      s.walker = .returned none ∧
      s.trace =
        [.acquire, .go, .mkdirAll "dst/".toList 0o775,
         .acquire, .go, .mkdirAll "dst/sub/".toList 0o775,
         .log "Failed to create destination dir dst/: mkdir dst/: permission denied".toList,
         .run { ctx := { id := 0 }, name := "decompyle3".toList,
                args := ["-o".toList, "dst/sub/b.py".toList, "src/sub/b.pyc".toList] },
         .run { ctx := { id := 0 }, name := "decompyle3".toList,
                args := ["-o".toList, "dst/a.py".toList, "src/a.pyc".toList] },
         .release,
         .log "failed to decompile src/sub/b.pyc: exit status 1".toList,
         .release] ∧
      s.crashed = false ∧
      failingSchedule.length + s.remaining ≤ 8 * exampleTree.size + 1 :=
  ⟨_, rfl, rfl, rfl,
    (job_failures_leave_result_nil exampleConfig exampleTree failingSchedule _ (by decide)
      (by decide) rfl).1,
    (job_failures_leave_result_nil exampleConfig exampleTree failingSchedule _ (by decide)
      (by decide) rfl).2.2.1⟩

/-- C7 (as stated, refuted): in the run on `exampleTree` in which the context is
cancelled after the root has been visited, the callback observes the
cancellation at `src/a.pyc`, `recursiveRun` returns a non-nil error, and `main`
panics with it. -/
theorem cancelled_run_returns_error :
    ∃ s, exec exampleConfig (recursiveRun exampleConfig exampleTree) [.visit, .cancel, .visit] =
          some s ∧
      s.walker =
        .returned (some (.wrapped "error in filepath walk: context canceled".toList .canceled)) ∧
      s.walker ≠ .returned none ∧
      main ["src".toList, "dst".toList]
          (some (.wrapped "error in filepath walk: context canceled".toList .canceled)) =
        .panic "Recursive decompilation failed: error in filepath walk: context canceled".toList := by
  refine ⟨_, rfl, rfl, ?_, by decide⟩
  intro h
  have h2 : Walker.returned
      (some (GoError.wrapped "error in filepath walk: context canceled".toList .canceled)) =
      Walker.returned none := h
  simp at h2

/-- C7 (amended): whenever the walk callback observes that the context has been
cancelled, `recursiveRun` stops the walk (no entry is visited and no unit
acquired afterwards, and nothing is acquired, started or logged by that call)
and returns a non-nil error, and `main`, called with its two arguments, panics
with "Recursive decompilation failed: " followed by the message of that error.
The callback observes the cancellation in one of two places.  At its check of
`ctx.Err()` (line 47) the error returned by `recursiveRun` is `ctx.Err()` wrapped
with the message "error in filepath walk: " followed by its message.  In
`sem.Acquire` (line 60), which fails with `ctx.Err()`, it is `ctx.Err()` wrapped
twice, with the message "error in filepath walk: failed to acquire semaphore: "
followed by its message. -/
theorem cancelled_walk_returns_wrapped_error (cfg : Config) (s : State) (e : GoError)
    (halive : s.crashed = false) (hctx : s.ctxErr = some e) :
    (∀ entry stack, s.walker = .walking (entry :: stack) →
      ∃ s1, step cfg s .visit = some s1 ∧
        s1.walker =
          .returned (some (.wrapped ("error in filepath walk: ".toList ++ e.Error) e)) ∧
        s1.jobs = s.jobs ∧ s1.cur = s.cur ∧ s1.trace = s.trace ∧
        step cfg s1 .visit = none ∧ (∀ o, step cfg s1 (.acquire o) = none) ∧
        step cfg s1 .acquireFail = none ∧
        ∀ args : List GoString, 2 ≤ args.length →
          main args (some (.wrapped ("error in filepath walk: ".toList ++ e.Error) e)) =
            .panic
              ("Recursive decompilation failed: error in filepath walk: ".toList ++ e.Error)) ∧
      (∀ path stack, s.walker = .acquiring path stack →
        ∃ s1, step cfg s .acquireFail = some s1 ∧
          s1.walker =
            .returned (some (.wrapped
              ("error in filepath walk: failed to acquire semaphore: ".toList ++ e.Error)
              (.wrapped ("failed to acquire semaphore: ".toList ++ e.Error) e))) ∧
          s1.jobs = s.jobs ∧ s1.cur = s.cur ∧ s1.trace = s.trace ∧
          step cfg s1 .visit = none ∧ (∀ o, step cfg s1 (.acquire o) = none) ∧
          step cfg s1 .acquireFail = none ∧
          ∀ args : List GoString, 2 ≤ args.length →
            main args (some (.wrapped
                ("error in filepath walk: failed to acquire semaphore: ".toList ++ e.Error)
                (.wrapped ("failed to acquire semaphore: ".toList ++ e.Error) e))) =
              .panic
                ("Recursive decompilation failed: error in filepath walk: failed to acquire semaphore: ".toList
                  ++ e.Error)) := by
  refine ⟨?_, ?_⟩
  · intro entry stack hw
    refine ⟨{ s with
        walker := .returned (some (.wrapped ("error in filepath walk: ".toList ++ e.Error) e)) },
      ?_, rfl, rfl, rfl, rfl, ?_, ?_, ?_, ?_⟩
    · rw [step_visit_eq cfg s halive]
      exact visit_cancelled s e entry stack hctx hw
    · exact (returned_no_walk cfg _ _ rfl).1
    · exact (returned_no_walk cfg _ _ rfl).2.1
    · exact (returned_no_walk cfg _ _ rfl).2.2
    · intro args hargs
      have : ¬ args.length < 2 := by omega
      simp [main, this, fmt.Sprintf, fmt.Arg.format, GoError.Error]
  · intro path stack hw
    refine ⟨{ s with
        walker := .returned (some (.wrapped
          ("error in filepath walk: failed to acquire semaphore: ".toList ++ e.Error)
          (.wrapped ("failed to acquire semaphore: ".toList ++ e.Error) e))) },
      acquireFail_cancelled cfg s e path stack halive hctx hw, rfl, rfl, rfl, rfl, ?_, ?_, ?_, ?_⟩
    · exact (returned_no_walk cfg _ _ rfl).1
    · exact (returned_no_walk cfg _ _ rfl).2.1
    · exact (returned_no_walk cfg _ _ rfl).2.2
    · intro args hargs
      have : ¬ args.length < 2 := by omega
      simp [main, this, fmt.Sprintf, fmt.Arg.format, GoError.Error]

/-- The context is cancelled after the visit of the root of `exampleTree`, and the
next call of the callback makes `recursiveRun` return the wrapped error; or it
is cancelled while the callback waits in `sem.Acquire` for `src/a.pyc`, and the
failed acquire makes `recursiveRun` return the error wrapped twice. -/
theorem cancelled_walk_returns_wrapped_error_witness :
    (exec exampleConfig (recursiveRun exampleConfig exampleTree) [.visit, .cancel] =
        some (stateAfter [.visit, .cancel]) ∧
      ∃ s1, step exampleConfig (stateAfter [.visit, .cancel]) .visit = some s1 ∧
        s1.walker =
          .returned
            (some (.wrapped "error in filepath walk: context canceled".toList .canceled))) ∧
      (exec exampleConfig (recursiveRun exampleConfig exampleTree) [.visit, .visit, .cancel] =
        some (stateAfter [.visit, .visit, .cancel]) ∧
      ∃ s1, step exampleConfig (stateAfter [.visit, .visit, .cancel]) .acquireFail = some s1 ∧
        s1.walker =
          .returned (some (.wrapped
            "error in filepath walk: failed to acquire semaphore: context canceled".toList
            (.wrapped "failed to acquire semaphore: context canceled".toList .canceled)))) := by
  refine ⟨⟨rfl, ?_⟩, ⟨rfl, ?_⟩⟩
  · obtain ⟨s1, h1, h2, _⟩ :=
      (cancelled_walk_returns_wrapped_error exampleConfig (stateAfter [.visit, .cancel])
        .canceled rfl rfl).1 _ _ rfl
    exact ⟨s1, h1, h2⟩
  · obtain ⟨s1, h1, h2, _⟩ :=
      (cancelled_walk_returns_wrapped_error exampleConfig (stateAfter [.visit, .visit, .cancel])
        .canceled rfl rfl).2 _ _ rfl
    exact ⟨s1, h1, h2⟩

/-- C8: a call of the walk callback under a cancelled context returns `ctx.Err()`
for every kind of entry, with or without file info or walk error, and does
nothing else: it acquires no unit and starts no job.  In a run, that call makes
`recursiveRun` return, and in every later state no further entry is visited and
the numbers of acquired units and of started jobs are what they were. -/
theorem cancelled_callback_starts_nothing (cfg : Config) (tree : Node) (as : List Action)
    (s : State) (e : GoError) (entry : Entry) (stack : List Entry)
    (h : exec cfg (recursiveRun cfg tree) as = some s) (halive : s.crashed = false)
    (hctx : s.ctxErr = some e) (hw : s.walker = .walking (entry :: stack)) :
    (∀ acq o path info err,
        walkFn cfg (some e) acq o path info err =
          { events := [], spawned := none, ret := .value (some e) }) ∧
      ∃ s1, step cfg s .visit = some s1 ∧
        s1.cur = s.cur ∧ s1.jobs = s.jobs ∧ s1.trace = s.trace ∧
        (∃ r, s1.walker = .returned r) ∧
        ∀ as2 s2, exec cfg s1 as2 = some s2 →
          s2.walker = s1.walker ∧
          s2.trace.count .go = s.trace.count .go ∧
          s2.trace.count .acquire = s.trace.count .acquire ∧
          step cfg s2 .visit = none ∧ (∀ o, step cfg s2 (.acquire o) = none) := by
  have hinv := inv_exec cfg _ s as (inv_init cfg tree) h
  refine ⟨?_, { s with
      walker := .returned (some (.wrapped ("error in filepath walk: ".toList ++ e.Error) e)) },
    ?_, rfl, rfl, rfl, ⟨_, rfl⟩, ?_⟩
  · intro acq o path info err
    simp [walkFn, walkFnFilter]
  · rw [step_visit_eq cfg s halive]
    exact visit_cancelled s e entry stack hctx hw
  · intro as2 s2 h2
    have hinv1 : Inv cfg { s with
        walker := .returned (some (.wrapped ("error in filepath walk: ".toList ++ e.Error) e)) } :=
      ⟨hinv.cur_eq, hinv.cur_le, hinv.jobs_hold, hinv.paired, hinv.started⟩
    obtain ⟨h3, h4, h5⟩ := returned_exec cfg _ s2 as2 _ hinv1 rfl h2
    exact ⟨h3, h4, h5, (returned_no_walk cfg s2 _ h3).1, (returned_no_walk cfg s2 _ h3).2.1⟩

/-- The context is cancelled while the job of `a.pyc` runs and before `src/sub`
is visited; the next call of the callback starts nothing and ends the walk. -/
theorem cancelled_callback_starts_nothing_witness :
    exec exampleConfig (recursiveRun exampleConfig exampleTree)
        [.visit, .visit, .acquire (allFine "a.pyc"), .visit, .cancel] =
        some (stateAfter [.visit, .visit, .acquire (allFine "a.pyc"), .visit, .cancel]) ∧
      (stateAfter [.visit, .visit, .acquire (allFine "a.pyc"), .visit, .cancel]).jobs.length = 1 ∧
      ∃ s1, step exampleConfig
            (stateAfter [.visit, .visit, .acquire (allFine "a.pyc"), .visit, .cancel]) .visit =
          some s1 ∧
        s1.jobs = (stateAfter [.visit, .visit, .acquire (allFine "a.pyc"), .visit, .cancel]).jobs ∧
        ∃ r, s1.walker = .returned r := by
  refine ⟨rfl, rfl, ?_⟩
  obtain ⟨_, s1, h1, _, h2, _, h3, _⟩ :=
    cancelled_callback_starts_nothing exampleConfig exampleTree
      [.visit, .visit, .acquire (allFine "a.pyc"), .visit, .cancel]
      (stateAfter [.visit, .visit, .acquire (allFine "a.pyc"), .visit, .cancel]) .canceled _ _
      rfl rfl rfl rfl
  exact ⟨s1, h1, h2, h3⟩

end RecursiveDecompyle
